/-
  Verification of the two Ramulator address-mapper strategies
  (src/addr_mapper/impl/hbm_psbg_mapper.cpp  — linear RoBaRaCoCh mapping,
   src/addr_mapper/impl/hbm4_group_mapper.cpp — channel-group aware mapping)
  against their natural-language specification.

  The C++ sources are shallowly embedded below: machine integers become
  Nat/Int, the mutable request becomes an explicit record that each
  `apply` transforms, exceptions become `Except`, and the grouped
  strategy's process-wide static histogram/counter becomes explicit
  state threading.
-/
import Mathlib

namespace Ramulator

/-- Modelled from the spec: the bit-width helper `calc_log2` from
`base/base.h` is not under `src/`.  The spec derives each level's width
as log2 of its (power-of-two, per the scope in §1) entry count; this is
realised as the floor base-2 logarithm computed by repeated halving,
which coincides with ceil(log2) on powers of two.  Structural fuel
recursion (fuel = the value itself) keeps the definition kernel-reducible. -/
def log2_fuel : Nat → Nat → Nat
  | 0, _ => 0
  | fuel + 1, v => if 2 ≤ v then log2_fuel fuel (v / 2) + 1 else 0

/-- Modelled from the spec: floor base-2 logarithm (0 for inputs 0 and 1). -/
def calc_log2 (v : Nat) : Nat := log2_fuel v v

/-- Modelled from the spec (§4.3): take the low-order `bits` bits of the
address and shift the remainder right by `bits` — the helper
`slice_lower_bits` from `base/base.h` is not under `src/`.  Returns
(extracted field, remaining address). -/
def slice_lower_bits (addr : Nat) (bits : Nat) : Nat × Nat :=
  (addr % 2 ^ bits, addr / 2 ^ bits)

/-- Modelled from the spec (§6): the slice of the device model (`IDRAM`)
that the mappers consume — per-level entry counts, the ordered level-name
list backing `m_levels(name)` lookup, internal prefetch size and channel
width.  The header is not under `src/`. -/
structure DramModel where
  count : List Nat
  levels : List String
  internal_prefetch_size : Nat
  channel_width : Nat
  deriving DecidableEq

/-- Level-name lookup `m_dram->m_levels(name)`: index of the name in the
ordered level list, `none` when the topology omits it (the C++ lookup
throws in that case; the linear mapper catches this and uses -1). -/
def level_lookup (m : DramModel) (name : String) : Option Nat :=
  m.levels.findIdx? (· == name)

/-- Modelled from the spec (§3): the request record — an input linear
address (int64, non-negative in all uses) and the output address vector
whose slots are ints with -1 as the "unset" sentinel. -/
structure Request where
  addr : Nat
  addr_vec : List Int
  deriving DecidableEq

/-- `std::vector::resize(n, fill)`: keep the first `n` elements, append
`fill` while shorter than `n` (used by the grouped mapper's `apply`). -/
def list_resize (v : List Int) (n : Nat) (fill : Int) : List Int :=
  v.take n ++ List.replicate (n - v.length) fill

/-! ## Linear strategy: `HBM_PsBg_RoBaRaCoCh` -/

/-- The geometry fields of `HBM_PsBg_RoBaRaCoCh` once `ensure_initialized`
has run: per-level bit widths, transfer-unit shift, and the resolved level
indices (ints, -1 marking an absent optional level). -/
structure PsBgGeom where
  num_levels : Nat
  addr_bits : List Nat
  tx_offset : Nat
  idx_channel : Int
  idx_pch : Int
  idx_bg : Int
  idx_bank : Int
  idx_row : Int
  idx_col : Int
  deriving DecidableEq

/-- Bit width of the level whose resolved index is `i`
(`m_addr_bits[i]`; only ever read under a `0 ≤ i` guard). -/
def pw (g : PsBgGeom) (i : Int) : Nat := g.addr_bits.getD i.toNat 0

/-- `HBM_PsBg_RoBaRaCoCh::ensure_initialized`, geometry-building part
(the `m_dram == nullptr` check lives in `psbg_ensure` below): fails on an
empty entry-count list, on a count/levels length mismatch, and on an
unresolvable mandatory level; adjusts the column width by the prefetch
width with a clamp at zero; derives the transfer-unit shift. -/
def ensure_initialized (m : DramModel) : Except String PsBgGeom :=
  if m.count.isEmpty then
    .error "HBM_PsBg_RoBaRaCoCh: DRAM organization not ready; init order issue"
  else if m.count.length ≠ m.levels.length then
    .error "HBM_PsBg_RoBaRaCoCh: organization.count size mismatch"
  else
    let bits0 := m.count.map calc_log2
    let gi : String → Int := fun name =>
      match level_lookup m name with
      | some i => (i : Int)
      | none => -1
    let ich := gi "channel"
    let ipch := gi "pseudochannel"
    let ibg := gi "bankgroup"
    let ibank := gi "bank"
    let irow := gi "row"
    let icol := gi "column"
    if ich < 0 ∨ ibank < 0 ∨ irow < 0 ∨ icol < 0 then
      .error "HBM_PsBg_RoBaRaCoCh: required levels missing (channel/bank/row/column)"
    else
      let p := calc_log2 m.internal_prefetch_size
      let rawcol := bits0.getD icol.toNat 0
      let bits := bits0.set icol.toNat (if p ≤ rawcol then rawcol - p else 0)
      let tx := calc_log2 (m.internal_prefetch_size * m.channel_width / 8)
      .ok { num_levels := m.count.length, addr_bits := bits, tx_offset := tx,
            idx_channel := ich, idx_pch := ipch, idx_bg := ibg,
            idx_bank := ibank, idx_row := irow, idx_col := icol }

/-- The mutable fields of an `HBM_PsBg_RoBaRaCoCh` instance that matter
to its behaviour: the bound device model (null before `setup`) and the
cached geometry (`m_ready` plus the cached ints). -/
structure PsBgMapper where
  dram : Option DramModel
  geom : Option PsBgGeom
  deriving DecidableEq

/-- A freshly constructed mapper: `m_dram = nullptr`, `m_ready = false`. -/
def psbg_fresh : PsBgMapper := { dram := none, geom := none }

/-- `ensure_initialized` including its early-return on `m_ready` and the
`m_dram == nullptr` check. -/
def psbg_ensure (mp : PsBgMapper) : Except String PsBgGeom :=
  match mp.geom with
  | some g => .ok g
  | none =>
    match mp.dram with
    | none => .error "HBM_PsBg_RoBaRaCoCh: DRAM nullptr"
    | some m => ensure_initialized m

/-- The slicing part of `HBM_PsBg_RoBaRaCoCh::apply`: assign the vector
to all -1, drop the transfer-unit bits, then slice channel, row, bank,
bankgroup (when present with positive width), pseudochannel (same), and
finally column, each from the low end of the remaining address. -/
def psbg_apply (g : PsBgGeom) (addr0 : Nat) : List Int :=
  let v0 : List Int := List.replicate g.num_levels (-1)
  let a1 := addr0 / 2 ^ g.tx_offset
  let sc := slice_lower_bits a1 (pw g g.idx_channel)
  let v1 := v0.set g.idx_channel.toNat (sc.1 : Int)
  let sr := slice_lower_bits sc.2 (pw g g.idx_row)
  let v2 := v1.set g.idx_row.toNat (sr.1 : Int)
  let sb := slice_lower_bits sr.2 (pw g g.idx_bank)
  let v3 := v2.set g.idx_bank.toNat (sb.1 : Int)
  let step4 :=
    if 0 ≤ g.idx_bg ∧ 0 < pw g g.idx_bg then
      let s := slice_lower_bits sb.2 (pw g g.idx_bg)
      (v3.set g.idx_bg.toNat (s.1 : Int), s.2)
    else (v3, sb.2)
  let step5 :=
    if 0 ≤ g.idx_pch ∧ 0 < pw g g.idx_pch then
      let s := slice_lower_bits step4.2 (pw g g.idx_pch)
      (step4.1.set g.idx_pch.toNat (s.1 : Int), s.2)
    else step4
  let scol := slice_lower_bits step5.2 (pw g g.idx_col)
  step5.1.set g.idx_col.toNat (scol.1 : Int)

/-- `HBM_PsBg_RoBaRaCoCh::apply` at the public interface: run
`ensure_initialized` first; a thrown error leaves the request untouched,
otherwise only the address vector is replaced.  The second component
carries the propagated error, `none` on success. -/
def psbg_apply_req (mp : PsBgMapper) (r : Request) : Request × Option String :=
  match psbg_ensure mp with
  | .error e => (r, some e)
  | .ok g => ({ addr := r.addr, addr_vec := psbg_apply g r.addr }, none)

/-! ## Grouped strategy: `HBM4_GroupMapper` -/

/-- The geometry fields of `HBM4_GroupMapper` built by `setup`: note the
per-level widths are ints and the column adjustment below is NOT clamped. -/
structure GroupGeom where
  num_levels : Nat
  addr_bits : List Int
  tx_offset : Nat
  row_bits_idx : Nat
  col_bits_idx : Nat
  total_channels : Nat
  deriving DecidableEq

/-- The policy parameters `m_active_channels` / `m_group_sel_lsb`
(hard-coded to 16 and 10 in the source, described as configurable). -/
structure GroupParams where
  active_channels : Nat
  group_sel_lsb : Int
  deriving DecidableEq

/-- The source's hard-coded policy values. -/
def default_params : GroupParams := { active_channels := 16, group_sel_lsb := 10 }

/-- `HBM4_GroupMapper::setup`: derives widths, subtracts the prefetch
width from the last level's width without clamping, derives the
transfer-unit shift, and resolves only the `row` level by name (the
lookup throws when `row` is absent — there is no emptiness or length
validation). -/
def hbm4_setup (m : DramModel) : Except String GroupGeom :=
  let n := m.count.length
  let bits0 : List Int := m.count.map (fun c => (calc_log2 c : Int))
  let bits := bits0.set (n - 1)
    (bits0.getD (n - 1) 0 - (calc_log2 m.internal_prefetch_size : Int))
  let tx := calc_log2 (m.internal_prefetch_size * m.channel_width / 8)
  match level_lookup m "row" with
  | none => .error "HBM4_GroupMapper: level row not found"
  | some irow =>
    .ok { num_levels := n, addr_bits := bits, tx_offset := tx,
          row_bits_idx := irow, col_bits_idx := n - 1,
          total_channels := m.count.getD 0 0 }

/-- The process-wide static debug state inside `HBM4_GroupMapper::apply`:
the 64-entry channel histogram and the `seen` counter. -/
structure GroupState where
  hist : List Nat
  seen : Nat
  deriving DecidableEq

/-- Width of level `l` as used by the grouped `apply`
(`m_addr_bits[l]`; non-negative in every meaningful configuration). -/
def gw (g : GroupGeom) (l : Nat) : Nat := (g.addr_bits.getD l 0).toNat

/-- `A`: active channel count clamped into `[1, total_channels]`. -/
def hbm4_A (g : GroupGeom) (p : GroupParams) : Nat :=
  max 1 (min p.active_channels g.total_channels)

/-- `group_bits = (G > 1) ? calc_log2(G) : 0` with `G = C / A`. -/
def hbm4_group_bits (g : GroupGeom) (p : GroupParams) : Nat :=
  if 1 < g.total_channels / hbm4_A g p then
    calc_log2 (g.total_channels / hbm4_A g p)
  else 0

/-- `group_lsb_trx = max(0, m_group_sel_lsb - m_tx_offset)`: the
configured raw-address bit position rebased to transaction-address terms,
clamped at zero. -/
def hbm4_group_lsb_trx (g : GroupGeom) (p : GroupParams) : Nat :=
  (max 0 (p.group_sel_lsb - (g.tx_offset : Int))).toNat

/-- `group_id`: the `group_bits`-wide field of the normalized address at
the rebased position, 0 when there is a single group. -/
def hbm4_group_id (g : GroupGeom) (p : GroupParams) (a : Nat) : Nat :=
  if 0 < hbm4_group_bits g p then
    a / 2 ^ hbm4_group_lsb_trx g p % 2 ^ hbm4_group_bits g p
  else 0

/-- `intra_bits = (A > 1) ? calc_log2(A) : 0`. -/
def hbm4_intra_bits (g : GroupGeom) (p : GroupParams) : Nat :=
  if 1 < hbm4_A g p then calc_log2 (hbm4_A g p) else 0

/-- `intra_id`: the low `intra_bits` bits of the normalized address. -/
def hbm4_intra_id (g : GroupGeom) (p : GroupParams) (a : Nat) : Nat :=
  if 0 < hbm4_intra_bits g p then a % 2 ^ hbm4_intra_bits g p else 0

/-- `ch = group_id * A + intra_id`. -/
def hbm4_channel (g : GroupGeom) (p : GroupParams) (a : Nat) : Nat :=
  hbm4_group_id g p a * hbm4_A g p + hbm4_intra_id g p a

/-- The `for (lvl = 1; lvl <= m_row_bits_idx; ++lvl)` slicing loop of the
grouped `apply`, over an explicit list of level indices. -/
def sliceLoop (bits : List Int) : List Int → Nat → List Nat → List Int × Nat
  | v, b, [] => (v, b)
  | v, b, lvl :: rest =>
    let s := slice_lower_bits b (bits.getD lvl 0).toNat
    sliceLoop bits (v.set lvl (s.1 : Int)) s.2 rest

/-- `HBM4_GroupMapper::apply`: resize the vector, normalize the address,
compute the grouped channel into slot 0, update the static
histogram/counter, then consume the channel-width low bits and slice the
COLUMN level first followed by levels 1 through the row level in
ascending index order.  The spdlog output is pure I/O and has no
data-flow back into the computation. -/
def hbm4_apply (g : GroupGeom) (p : GroupParams) (s : GroupState)
    (req : Request) : Request × GroupState :=
  let v0 := list_resize req.addr_vec g.num_levels (-1)
  let a := req.addr / 2 ^ g.tx_offset
  let ch := hbm4_channel g p a
  let v1 := v0.set 0 (ch : Int)
  let hist1 := if ch < 64 then s.hist.set ch (s.hist.getD ch 0 + 1) else s.hist
  let seen1 := s.seen + 1
  let b0 := (slice_lower_bits a (gw g 0)).2
  let sc := slice_lower_bits b0 (gw g g.col_bits_idx)
  let v2 := v1.set g.col_bits_idx (sc.1 : Int)
  let v3 := (sliceLoop g.addr_bits v2 sc.2 (List.range' 1 g.row_bits_idx)).1
  ({ addr := req.addr, addr_vec := v3 }, { hist := hist1, seen := seen1 })

/-! ## Generic bit-slicing machinery

A slicing plan is a list of (vector slot, bit width) pairs; `sliceAll`
executes it exactly as the sequential `slice_lower_bits` calls in both
`apply` implementations do.  Both appliers are proved equal to `sliceAll`
on their respective plans, and the order/round-trip claims are settled
through the plan lemmas further below. -/

def sliceAll : List (Nat × Nat) → List Int → Nat → List Int × Nat
  | [], v, b => (v, b)
  | (i, w) :: rest, v, b =>
    sliceAll rest (v.set i ((b % 2 ^ w : Nat) : Int)) (b / 2 ^ w)

/-- Reassemble a normalized address from the slots of a plan, low slices
first: slot value plus `2 ^ width` times the reassembly of the rest. -/
def reconAll : List (Nat × Nat) → List Int → Nat
  | [], _ => 0
  | (i, w) :: rest, v => (v.getD i 0).toNat + 2 ^ w * reconAll rest v

/-- The slicing plan realized by `psbg_apply`: channel, row, bank, then
bankgroup and pseudochannel when present with positive width, column
last. -/
def psbg_plan (g : PsBgGeom) : List (Nat × Nat) :=
  [(g.idx_channel.toNat, pw g g.idx_channel),
   (g.idx_row.toNat, pw g g.idx_row),
   (g.idx_bank.toNat, pw g g.idx_bank)]
  ++ (if 0 ≤ g.idx_bg ∧ 0 < pw g g.idx_bg
      then [(g.idx_bg.toNat, pw g g.idx_bg)] else [])
  ++ (if 0 ≤ g.idx_pch ∧ 0 < pw g g.idx_pch
      then [(g.idx_pch.toNat, pw g g.idx_pch)] else [])
  ++ [(g.idx_col.toNat, pw g g.idx_col)]

/-- The post-channel slicing plan realized by `hbm4_apply`: the column
level first, then levels 1 through the row level in ascending index
order. -/
def hbm4_tail_plan (g : GroupGeom) : List (Nat × Nat) :=
  (g.col_bits_idx, gw g g.col_bits_idx) ::
    (List.range' 1 g.row_bits_idx).map fun l => (l, gw g l)

/-! ## Concrete device models and the geometries they induce,
used as witnesses and counterexample inputs. -/

/-- An HBM-style model: 8 channels, 2 pseudochannels, 4 bankgroups,
4 banks, 64 rows, 32 columns; prefetch 2, channel width 32. -/
def mL : DramModel :=
  { count := [8, 2, 4, 4, 64, 32],
    levels := ["channel", "pseudochannel", "bankgroup", "bank", "row", "column"],
    internal_prefetch_size := 2, channel_width := 32 }

/-- The geometry `ensure_initialized` builds from `mL`. -/
def gL : PsBgGeom :=
  { num_levels := 6, addr_bits := [3, 1, 2, 2, 6, 4], tx_offset := 3,
    idx_channel := 0, idx_pch := 1, idx_bg := 2,
    idx_bank := 3, idx_row := 4, idx_col := 5 }

/-- Like `mL` but with 32 channels, for the grouped strategy. -/
def mG : DramModel :=
  { count := [32, 2, 4, 4, 64, 32],
    levels := ["channel", "pseudochannel", "bankgroup", "bank", "row", "column"],
    internal_prefetch_size := 2, channel_width := 32 }

/-- The geometry `hbm4_setup` builds from `mG`. -/
def gG : GroupGeom :=
  { num_levels := 6, addr_bits := [5, 1, 2, 2, 6, 4], tx_offset := 3,
    row_bits_idx := 4, col_bits_idx := 5, total_channels := 32 }

/-- A minimal model whose four levels are all mandatory ones. -/
def mX : DramModel :=
  { count := [2, 2, 2, 2], levels := ["channel", "bank", "row", "column"],
    internal_prefetch_size := 1, channel_width := 8 }

/-- The geometry `ensure_initialized` builds from `mX`
(bankgroup/pseudochannel absent, so their indices are -1). -/
def gX : PsBgGeom :=
  { num_levels := 4, addr_bits := [1, 1, 1, 1], tx_offset := 0,
    idx_channel := 0, idx_pch := -1, idx_bg := -1,
    idx_bank := 1, idx_row := 2, idx_col := 3 }

/-- A three-level model with 32 channels and tiny row/column levels:
its total sliced width (7 bits) sits below the group-select position. -/
def mC9 : DramModel :=
  { count := [32, 2, 2], levels := ["channel", "row", "column"],
    internal_prefetch_size := 1, channel_width := 8 }

/-- The geometry `hbm4_setup` builds from `mC9`. -/
def gC9v : GroupGeom :=
  { num_levels := 3, addr_bits := [5, 1, 1], tx_offset := 0,
    row_bits_idx := 1, col_bits_idx := 2, total_channels := 32 }

/-- A model whose prefetch width (2 bits) exceeds its raw column width
(1 bit). -/
def mNeg : DramModel :=
  { count := [2, 4, 2], levels := ["channel", "row", "column"],
    internal_prefetch_size := 4, channel_width := 16 }

/-- The geometry `hbm4_setup` builds from `mNeg` — note the negative
column width. -/
def gNeg : GroupGeom :=
  { num_levels := 3, addr_bits := [1, 2, -1], tx_offset := 3,
    row_bits_idx := 1, col_bits_idx := 2, total_channels := 2 }

/-- A model whose entry-count list length (2) disagrees with its level
count (3) while `row` still resolves. -/
def mMis : DramModel :=
  { count := [2, 4], levels := ["channel", "row", "column"],
    internal_prefetch_size := 1, channel_width := 8 }

/-- A model with an empty entry-count list (device not initialized). -/
def mEmpty : DramModel :=
  { count := [], levels := ["channel", "bank", "row", "column"],
    internal_prefetch_size := 1, channel_width := 8 }

/-- A model missing the mandatory `bank` level. -/
def mNoBank : DramModel :=
  { count := [2, 2, 2], levels := ["channel", "row", "column"],
    internal_prefetch_size := 1, channel_width := 8 }

/-- The grouped strategy's static debug state at process start. -/
def st0 : GroupState := { hist := List.replicate 64 0, seen := 0 }

/-! ## Lemmas about the slicing machinery -/

theorem getD_set_ne {α : Type} (l : List α) (x d : α) {i j : Nat} (h : i ≠ j) :
    (l.set i x).getD j d = l.getD j d := by
  simp [List.getD_eq_getElem?_getD, List.getElem?_set_ne h]

theorem getD_set_self {α : Type} (l : List α) (x d : α) {i : Nat} (h : i < l.length) :
    (l.set i x).getD i d = x := by
  simp [List.getD_eq_getElem?_getD, List.getElem?_set_self h]

theorem sliceAll_length (ps : List (Nat × Nat)) (v : List Int) (b : Nat) :
    (sliceAll ps v b).1.length = v.length := by
  induction ps generalizing v b with
  | nil => rfl
  | cons hd tl ih => simpa [sliceAll] using ih (v.set hd.1 _) (b / 2 ^ hd.2)

theorem sliceAll_getD_not_mem (ps : List (Nat × Nat)) (v : List Int) (b : Nat)
    {i : Nat} (d : Int) (h : i ∉ ps.map Prod.fst) :
    (sliceAll ps v b).1.getD i d = v.getD i d := by
  induction ps generalizing v b with
  | nil => rfl
  | cons hd tl ih =>
    simp only [List.map_cons, List.mem_cons] at h
    push_neg at h
    rw [sliceAll, ih _ _ h.2, getD_set_ne _ _ _ (fun he => h.1 he.symm)]

theorem sliceAll_snd (ps : List (Nat × Nat)) (v : List Int) (b : Nat) :
    (sliceAll ps v b).2 = b / 2 ^ (ps.map Prod.snd).sum := by
  induction ps generalizing v b with
  | nil => simp [sliceAll]
  | cons hd tl ih =>
    rw [sliceAll, ih]
    simp [Nat.div_div_eq_div_mul, pow_add]

/-- The slot written by the plan entry `(i, w)` holds the `w`-bit field of
the address at the cumulative offset of all plan entries before it,
provided no later entry writes the same slot. -/
theorem sliceAll_getD_last (ps1 ps2 : List (Nat × Nat)) (i w : Nat)
    (v : List Int) (b : Nat) (hi : i < v.length)
    (h2 : i ∉ ps2.map Prod.fst) :
    (sliceAll (ps1 ++ (i, w) :: ps2) v b).1.getD i 0 =
      ((b / 2 ^ (ps1.map Prod.snd).sum % 2 ^ w : Nat) : Int) := by
  induction ps1 generalizing v b with
  | nil =>
    rw [List.nil_append, sliceAll, sliceAll_getD_not_mem _ _ _ _ h2,
      getD_set_self _ _ _ hi]
    simp
  | cons hd tl ih =>
    rw [List.cons_append, sliceAll, ih _ _ (by simpa using hi)]
    simp [Nat.div_div_eq_div_mul, pow_add]

/-- Round trip: slicing a plan with pairwise-distinct in-range slots and
then reassembling recovers the address modulo the total consumed width. -/
theorem reconAll_sliceAll (ps : List (Nat × Nat)) (v : List Int) (b : Nat)
    (hnd : (ps.map Prod.fst).Nodup)
    (hlt : ∀ i ∈ ps.map Prod.fst, i < v.length) :
    reconAll ps (sliceAll ps v b).1 = b % 2 ^ (ps.map Prod.snd).sum := by
  induction ps generalizing v b with
  | nil => simp [reconAll, sliceAll, Nat.mod_one]
  | cons hd tl ih =>
    obtain ⟨i, w⟩ := hd
    simp only [List.map_cons, List.nodup_cons] at hnd
    have hiv : i < v.length := hlt i (by simp)
    have htl : ∀ j ∈ tl.map Prod.fst, j < (v.set i ((b % 2 ^ w : Nat) : Int)).length := by
      intro j hj
      rw [List.length_set]
      exact hlt j (by simp [hj])
    rw [sliceAll, reconAll,
      sliceAll_getD_not_mem _ _ _ _ hnd.1,
      getD_set_self _ _ _ hiv,
      ih _ _ hnd.2 htl]
    have hmm : b % (2 ^ w * 2 ^ (tl.map Prod.snd).sum) =
        b % 2 ^ w + 2 ^ w * (b / 2 ^ w % 2 ^ (tl.map Prod.snd).sum) := Nat.mod_mul
    simp only [List.map_cons, List.sum_cons, pow_add]
    rw [hmm, Int.toNat_natCast]

/-- Reassembly reads only the plan's slots. -/
theorem reconAll_congr (ps : List (Nat × Nat)) (v u : List Int)
    (h : ∀ i ∈ ps.map Prod.fst, v.getD i 0 = u.getD i 0) :
    reconAll ps v = reconAll ps u := by
  induction ps with
  | nil => rfl
  | cons hd tl ih =>
    rw [reconAll, reconAll, h hd.1 (by simp),
      ih (fun i hi => h i (by simp [hi]))]

theorem sliceLoop_eq_sliceAll (bits : List Int) (v : List Int) (b : Nat)
    (ls : List Nat) :
    sliceLoop bits v b ls =
      sliceAll (ls.map fun l => (l, (bits.getD l 0).toNat)) v b := by
  induction ls generalizing v b with
  | nil => rfl
  | cons hd tl ih => rw [List.map_cons, sliceLoop, sliceAll]; exact ih _ _

theorem list_resize_length (v : List Int) (n : Nat) (fill : Int) :
    (list_resize v n fill).length = n := by
  simp [list_resize]
  omega

/-- `2 ^ calc_log2 v ≤ v` for positive `v` (floor logarithm). -/
theorem log2_fuel_le (fuel v : Nat) (h1 : 1 ≤ v) (h2 : v ≤ fuel) :
    2 ^ log2_fuel fuel v ≤ v := by
  induction fuel generalizing v with
  | zero => omega
  | succ f ih =>
    rw [log2_fuel]
    by_cases hv : 2 ≤ v
    · simp only [hv, if_true]
      have hd1 : 1 ≤ v / 2 := by omega
      have hd2 : v / 2 ≤ f := by omega
      have := ih (v / 2) hd1 hd2
      calc 2 ^ (log2_fuel f (v / 2) + 1) = 2 ^ log2_fuel f (v / 2) * 2 := by ring
        _ ≤ v / 2 * 2 := by omega
        _ ≤ v := by omega
    · simp only [hv, if_false]
      omega

theorem calc_log2_le (v : Nat) (h : 1 ≤ v) : 2 ^ calc_log2 v ≤ v :=
  log2_fuel_le v v h (le_refl v)

/-! ## Bridging the two appliers to their slicing plans -/

theorem psbg_apply_eq_plan (g : PsBgGeom) (addr0 : Nat) :
    psbg_apply g addr0 =
      (sliceAll (psbg_plan g) (List.replicate g.num_levels (-1))
        (addr0 / 2 ^ g.tx_offset)).1 := by
  by_cases hbg : 0 ≤ g.idx_bg ∧ 0 < pw g g.idx_bg <;>
    by_cases hpch : 0 ≤ g.idx_pch ∧ 0 < pw g g.idx_pch <;>
      simp [psbg_apply, psbg_plan, sliceAll, slice_lower_bits, hbg, hpch]

theorem hbm4_apply_vec_eq (g : GroupGeom) (p : GroupParams) (s : GroupState)
    (req : Request) :
    (hbm4_apply g p s req).1.addr_vec =
      (sliceAll (hbm4_tail_plan g)
        ((list_resize req.addr_vec g.num_levels (-1)).set 0
          ((hbm4_channel g p (req.addr / 2 ^ g.tx_offset) : Nat) : Int))
        (req.addr / 2 ^ g.tx_offset / 2 ^ gw g 0)).1 := by
  simp [hbm4_apply, hbm4_tail_plan, sliceAll, slice_lower_bits,
    sliceLoop_eq_sliceAll, gw]

theorem ensure_mL_eq : ensure_initialized mL = .ok gL := by rfl

theorem setup_mG_eq : hbm4_setup mG = .ok gG := by rfl

theorem ensure_mX_eq : ensure_initialized mX = .ok gX := by rfl

theorem setup_mC9_eq : hbm4_setup mC9 = .ok gC9v := by rfl

theorem setup_mNeg_eq : hbm4_setup mNeg = .ok gNeg := by rfl

theorem calc_log2_pos (v : Nat) (h : 2 ≤ v) : 0 < calc_log2 v := by
  unfold calc_log2
  obtain ⟨f, rfl⟩ : ∃ f, v = f + 2 := ⟨v - 2, by omega⟩
  simp [log2_fuel, h]

theorem level_lookup_eq_none {m : DramModel} {name : String}
    (h : name ∉ m.levels) : level_lookup m name = none := by
  rw [level_lookup, List.findIdx?_eq_none_iff]
  intro x hx
  rw [beq_eq_false_iff_ne]
  exact fun he => h (he ▸ hx)

theorem level_lookup_isSome {m : DramModel} {name : String}
    (h : name ∈ m.levels) : (level_lookup m name).isSome := by
  rw [level_lookup, List.findIdx?_isSome, List.any_eq_true]
  exact ⟨name, h, by simp⟩

/-- Slot 0 of the grouped output vector carries the recombined channel:
the column write and the level-1..row loop never touch slot 0. -/
theorem hbm4_vec_getD_zero (g : GroupGeom) (p : GroupParams) (s : GroupState)
    (r : Request) (hn : 0 < g.num_levels) (hc : g.col_bits_idx ≠ 0) :
    (hbm4_apply g p s r).1.addr_vec.getD 0 0 =
      ((hbm4_channel g p (r.addr / 2 ^ g.tx_offset) : Nat) : Int) := by
  rw [hbm4_apply_vec_eq]
  rw [sliceAll_getD_not_mem]
  · rw [getD_set_self]
    rw [list_resize_length]
    exact hn
  · simp only [hbm4_tail_plan, List.map_cons, List.map_map, List.mem_cons]
    push_neg
    refine ⟨fun he => hc he.symm, ?_⟩
    intro hmem
    simp only [List.mem_map, Function.comp] at hmem
    obtain ⟨l, hl, hl0⟩ := hmem
    rw [List.mem_range'_1] at hl
    omega

/-- The column width built by the linear strategy equals the raw width
minus the prefetch width, clamped at zero (truncated Nat subtraction). -/
theorem psbg_col_bits_clamped (m : DramModel) (g : PsBgGeom)
    (h : ensure_initialized m = .ok g) :
    g.addr_bits.getD g.idx_col.toNat 0 =
      (m.count.map calc_log2).getD g.idx_col.toNat 0 -
        calc_log2 m.internal_prefetch_size := by
  simp only [ensure_initialized] at h
  split at h
  · simp at h
  · split at h
    · simp at h
    · split at h
      · simp at h
      · rw [Except.ok.injEq] at h
        subst h
        simp only
        by_cases hin :
            (match level_lookup m "column" with
              | some i => (i : Int)
              | none => -1).toNat < (m.count.map calc_log2).length
        · rw [getD_set_self _ _ _ hin]
          split <;> omega
        · rw [List.getD_eq_default _ _ (by rw [List.length_set]; omega),
            List.getD_eq_default _ _ (by omega)]
          omega

/-- The column width built by the grouped strategy is the raw width minus
the prefetch width as an unclamped integer subtraction. -/
theorem hbm4_col_bits_unclamped (m : DramModel) (g : GroupGeom)
    (hne : m.count ≠ []) (h : hbm4_setup m = .ok g) :
    g.addr_bits.getD (g.num_levels - 1) 0 =
      (m.count.map fun c => (calc_log2 c : Int)).getD (m.count.length - 1) 0 -
        (calc_log2 m.internal_prefetch_size : Int) := by
  simp only [hbm4_setup] at h
  rcases hr : level_lookup m "row" with _ | irow <;> rw [hr] at h
  · simp at h
  · rw [Except.ok.injEq] at h
    subst h
    simp only
    have hin : m.count.length - 1 <
        (m.count.map fun c => (calc_log2 c : Int)).length := by
      rw [List.length_map]
      have : m.count.length ≠ 0 := fun h0 => hne (List.length_eq_zero.mp h0)
      omega
    rw [getD_set_self _ _ _ hin]

/-! ## Claim theorems -/

/-- C2 (counterexample): the grouped strategy's setup does NOT clamp the
column width at zero: on the model `mNeg`, whose prefetch bit width (2)
exceeds its raw column bit width (1), the built column width is -1,
refuting "the resulting column width is 0, never negative" for both
strategies. -/
theorem grouped_column_width_negative :
    (hbm4_setup mNeg).toOption.map (fun g => g.addr_bits.getD 2 0) =
        some (-1) ∧ (-1 : Int) < 0 := by
  constructor
  · rfl
  · decide

/-- C2 (amended): the LINEAR strategy's column width equals the raw width
ceil(log2(column entries)) minus log2(prefetch size) clamped at zero
(truncated Nat subtraction); the GROUPED strategy's setup performs the
same subtraction unclamped over the integers, so it can go negative. -/
theorem column_width_adjustment :
    (∀ (m : DramModel) (g : PsBgGeom), ensure_initialized m = .ok g →
      g.addr_bits.getD g.idx_col.toNat 0 =
        (m.count.map calc_log2).getD g.idx_col.toNat 0 -
          calc_log2 m.internal_prefetch_size) ∧
    (∀ (m : DramModel) (g : GroupGeom), m.count ≠ [] →
      hbm4_setup m = .ok g →
      g.addr_bits.getD (g.num_levels - 1) 0 =
        (m.count.map fun c => (calc_log2 c : Int)).getD (m.count.length - 1) 0 -
          (calc_log2 m.internal_prefetch_size : Int)) :=
  ⟨psbg_col_bits_clamped, hbm4_col_bits_unclamped⟩

/-- C2 (witness): the linear clamped width at `mL` (column width 4) and
the grouped unclamped width at `mNeg` (column width -1). -/
theorem column_width_adjustment_witness :
    gL.addr_bits.getD gL.idx_col.toNat 0 =
        (mL.count.map calc_log2).getD gL.idx_col.toNat 0 -
          calc_log2 mL.internal_prefetch_size ∧
      gNeg.addr_bits.getD (gNeg.num_levels - 1) 0 =
        (mNeg.count.map fun c => (calc_log2 c : Int)).getD
            (mNeg.count.length - 1) 0 -
          (calc_log2 mNeg.internal_prefetch_size : Int) :=
  ⟨column_width_adjustment.1 mL gL ensure_mL_eq,
   column_width_adjustment.2 mNeg gNeg (by decide) setup_mNeg_eq⟩

/-- C3 (counterexample): the grouped strategy's setup performs no
entry-count/level-count validation: on `mMis`, whose entry-count list
length (2) disagrees with its level count (3), setup succeeds, refuting
"for both strategies, geometry construction fails with a fatal error
whenever ... its length disagrees with the expected level count". -/
theorem grouped_setup_skips_validation :
    mMis.count.length ≠ mMis.levels.length ∧
      (hbm4_setup mMis).toOption.isSome := by
  constructor
  · decide
  · rfl

/-- C3 (amended): the LINEAR strategy's geometry construction fails with
a fatal error when the entry-count list is empty, when its length
disagrees with the level count, and when a mandatory level
(channel/bank/row/column) cannot be resolved, and on the error path the
request is returned untouched with the error raised; the GROUPED
strategy's setup checks none of this — with a nonempty entry-count list
it succeeds whenever `row` resolves, even under a length mismatch. -/
theorem geometry_validation :
    (∀ m : DramModel, m.count = [] → (ensure_initialized m).toOption = none) ∧
    (∀ m : DramModel, m.count.length ≠ m.levels.length →
      (ensure_initialized m).toOption = none) ∧
    (∀ m : DramModel,
      ("channel" ∉ m.levels ∨ "bank" ∉ m.levels ∨ "row" ∉ m.levels ∨
        "column" ∉ m.levels) →
      (ensure_initialized m).toOption = none) ∧
    (∀ (mp : PsBgMapper) (r : Request), (psbg_ensure mp).toOption = none →
      (psbg_apply_req mp r).1 = r ∧ ((psbg_apply_req mp r).2).isSome) ∧
    (∀ m : DramModel, m.count ≠ [] → "row" ∈ m.levels →
      (hbm4_setup m).toOption.isSome) := by
  refine ⟨?_, ?_, ?_, ?_, ?_⟩
  · intro m h
    simp [ensure_initialized, h, Except.toOption]
  · intro m h
    by_cases he : m.count.isEmpty
    · simp [ensure_initialized, he, Except.toOption]
    · simp [ensure_initialized, he, h, Except.toOption]
  · intro m hmiss
    simp only [ensure_initialized]
    split
    · rfl
    · split
      · rfl
      · have hcond : (match level_lookup m "channel" with
            | some i => (i : Int) | none => -1) < 0 ∨
            (match level_lookup m "bank" with
              | some i => (i : Int) | none => -1) < 0 ∨
            (match level_lookup m "row" with
              | some i => (i : Int) | none => -1) < 0 ∨
            (match level_lookup m "column" with
              | some i => (i : Int) | none => -1) < 0 := by
          rcases hmiss with h | h | h | h
          · exact Or.inl (by rw [level_lookup_eq_none h]; decide)
          · exact Or.inr (Or.inl (by rw [level_lookup_eq_none h]; decide))
          · exact Or.inr (Or.inr (Or.inl
              (by rw [level_lookup_eq_none h]; decide)))
          · exact Or.inr (Or.inr (Or.inr
              (by rw [level_lookup_eq_none h]; decide)))
        simp only [if_pos hcond]
        rfl
  · intro mp r h
    rcases he : psbg_ensure mp with e | g
    · constructor
      · simp only [psbg_apply_req, he]
      · simp only [psbg_apply_req, he, Option.isSome_some]
    · rw [he] at h
      simp [Except.toOption] at h
  · intro m _ hrow
    have hs := level_lookup_isSome (m := m) hrow
    rcases hr : level_lookup m "row" with _ | i
    · rw [hr] at hs
      simp at hs
    · simp only [hbm4_setup, hr]
      rfl

/-- C3 (witness): the three linear fatal cases at concrete models, the
untouched-request error path, and grouped setup succeeding on the
mismatched model. -/
theorem geometry_validation_witness :
    (ensure_initialized mEmpty).toOption = none ∧
    (ensure_initialized mMis).toOption = none ∧
    (ensure_initialized mNoBank).toOption = none ∧
    ((psbg_apply_req { dram := some mEmpty, geom := none }
        { addr := 5, addr_vec := [7] }).1 = { addr := 5, addr_vec := [7] } ∧
      ((psbg_apply_req { dram := some mEmpty, geom := none }
        { addr := 5, addr_vec := [7] }).2).isSome) ∧
    (hbm4_setup mMis).toOption.isSome :=
  ⟨geometry_validation.1 mEmpty rfl,
   geometry_validation.2.1 mMis (by decide),
   geometry_validation.2.2.1 mNoBank (Or.inr (Or.inl (by decide))),
   geometry_validation.2.2.2.1 _ _ (by rfl),
   geometry_validation.2.2.2.2 mMis (by decide) (by decide)⟩

/-- C4 (confirmed): for every request, the grouped strategy writes into
slot 0 the channel groupId * activeChannels + intraId, with groupId the
groupBits-wide field of the normalized address at position
max(0, groupSelectBitPosition - transferUnitShift) (0 when groupBits = 0)
and intraId the low intraGroupBits bits (0 when intraGroupBits = 0); the
rebased position is clamped at 0 rather than underflowing. -/
theorem grouped_channel_formula (g : GroupGeom) (p : GroupParams)
    (s : GroupState) (r : Request)
    (hn : 0 < g.num_levels) (hc : g.col_bits_idx ≠ 0) :
    (hbm4_apply g p s r).1.addr_vec.getD 0 0 =
      (((if 0 < hbm4_group_bits g p then
          r.addr / 2 ^ g.tx_offset /
              2 ^ (max 0 (p.group_sel_lsb - (g.tx_offset : Int))).toNat %
            2 ^ hbm4_group_bits g p
        else 0) * hbm4_A g p +
        (if 0 < hbm4_intra_bits g p then
          r.addr / 2 ^ g.tx_offset % 2 ^ hbm4_intra_bits g p
        else 0) : Nat) : Int) := by
  rw [hbm4_vec_getD_zero g p s r hn hc]
  rfl

/-- C4 (witness): the channel formula evaluated on `gG` at address
2304. -/
theorem grouped_channel_formula_witness :
    0 < gG.num_levels ∧ gG.col_bits_idx ≠ 0 ∧
      (hbm4_apply gG default_params st0
        { addr := 2304, addr_vec := [] }).1.addr_vec.getD 0 0 = 0 := by
  refine ⟨by decide, by decide, ?_⟩
  rw [grouped_channel_formula gG default_params st0
    { addr := 2304, addr_vec := [] } (by decide) (by decide)]
  decide

/-- C6 (confirmed): with activeChannels in {2,4,8,16,32} and
activeChannels ≤ totalChannels, the clamp is the identity, the computed
intraId is below activeChannels and the computed groupId is below
groupCount = totalChannels / activeChannels; in the boundary case
activeChannels = totalChannels, groupBits = 0, groupId = 0 and the
channel equals intraId alone.  (Both ids are Nats, so 0 ≤ holds by
type.) -/
theorem grouped_channel_bounds (g : GroupGeom) (p : GroupParams) (a : Nat)
    (hmem : p.active_channels ∈ ([2, 4, 8, 16, 32] : List Nat))
    (hle : p.active_channels ≤ g.total_channels) :
    hbm4_A g p = p.active_channels ∧
    hbm4_intra_id g p a < hbm4_A g p ∧
    hbm4_group_id g p a < g.total_channels / hbm4_A g p ∧
    (p.active_channels = g.total_channels →
      hbm4_group_bits g p = 0 ∧ hbm4_group_id g p a = 0 ∧
        hbm4_channel g p a = hbm4_intra_id g p a) := by
  simp only [List.mem_cons, List.not_mem_nil, or_false] at hmem
  have h2 : 2 ≤ p.active_channels := by rcases hmem with h | h | h | h | h <;> omega
  have hA : hbm4_A g p = p.active_channels := by
    rw [hbm4_A, Nat.min_eq_left hle, Nat.max_eq_right (by omega)]
  have hApos : 0 < hbm4_A g p := by omega
  have hpow : 2 ^ calc_log2 p.active_channels = p.active_channels := by
    rcases hmem with h | h | h | h | h <;> rw [h] <;> decide
  have hib : hbm4_intra_bits g p = calc_log2 p.active_channels := by
    rw [hbm4_intra_bits, hA, if_pos (by omega)]
  have hintra : hbm4_intra_id g p a < hbm4_A g p := by
    rw [hbm4_intra_id, hib, if_pos (calc_log2_pos _ h2), hA]
    calc a % 2 ^ calc_log2 p.active_channels
        < 2 ^ calc_log2 p.active_channels :=
          Nat.mod_lt _ (Nat.pos_pow_of_pos _ (by omega))
      _ = p.active_channels := hpow
  have hG1 : 1 ≤ g.total_channels / hbm4_A g p := by
    rw [Nat.one_le_div_iff hApos, hA]
    exact hle
  have hgroup : hbm4_group_id g p a < g.total_channels / hbm4_A g p := by
    rw [hbm4_group_id]
    by_cases hgb : 0 < hbm4_group_bits g p
    · rw [if_pos hgb]
      rw [hbm4_group_bits] at hgb ⊢
      by_cases hG : 1 < g.total_channels / hbm4_A g p
      · rw [if_pos hG]
        calc a / 2 ^ hbm4_group_lsb_trx g p %
              2 ^ calc_log2 (g.total_channels / hbm4_A g p)
            < 2 ^ calc_log2 (g.total_channels / hbm4_A g p) :=
              Nat.mod_lt _ (Nat.pos_pow_of_pos _ (by omega))
          _ ≤ g.total_channels / hbm4_A g p := calc_log2_le _ (by omega)
      · rw [if_neg hG] at hgb
        omega
    · rw [if_neg hgb]
      omega
  refine ⟨hA, hintra, hgroup, ?_⟩
  intro heq
  have hGone : g.total_channels / hbm4_A g p = 1 := by
    rw [hA, ← heq]
    exact Nat.div_self (by omega)
  have hgb0 : hbm4_group_bits g p = 0 := by
    rw [hbm4_group_bits, hGone]
    simp
  have hgid0 : hbm4_group_id g p a = 0 := by
    rw [hbm4_group_id, hgb0]
    simp
  exact ⟨hgb0, hgid0, by rw [hbm4_channel, hgid0, Nat.zero_mul, Nat.zero_add]⟩

/-- C6 (witness): the bounds on `gG` (32 channels, 16 active) at
normalized address 288: intraId < 16 and groupId < 2. -/
theorem grouped_channel_bounds_witness :
    default_params.active_channels ∈ ([2, 4, 8, 16, 32] : List Nat) ∧
    default_params.active_channels ≤ gG.total_channels ∧
    hbm4_intra_id gG default_params 288 < hbm4_A gG default_params ∧
    hbm4_group_id gG default_params 288 <
      gG.total_channels / hbm4_A gG default_params :=
  ⟨by decide, by decide,
   (grouped_channel_bounds gG default_params 288 (by decide) (by decide)).2.1,
   (grouped_channel_bounds gG default_params 288 (by decide) (by decide)).2.2.1⟩

/-- C7 (confirmed): both appliers are deterministic in the produced
request: the grouped output request is independent of the static
histogram/log-counter state (so a repeated call after the state update
produces the same vector), and the linear output vector is a function of
the input address alone. -/
theorem apply_deterministic :
    (∀ (g : GroupGeom) (p : GroupParams) (s1 s2 : GroupState) (r : Request),
      (hbm4_apply g p s1 r).1 = (hbm4_apply g p s2 r).1) ∧
    (∀ (g : GroupGeom) (p : GroupParams) (s : GroupState) (r : Request),
      (hbm4_apply g p (hbm4_apply g p s r).2 r).1.addr_vec =
        (hbm4_apply g p s r).1.addr_vec) ∧
    (∀ (g : PsBgGeom) (r1 r2 : Request), r1.addr = r2.addr →
      psbg_apply g r1.addr = psbg_apply g r2.addr) := by
  refine ⟨?_, ?_, ?_⟩
  · intro g p s1 s2 r
    rfl
  · intro g p s r
    rfl
  · intro g r1 r2 h
    rw [h]

/-- C7 (witness): determinism at `gG`/`gL` on address 2304 with two
different static states. -/
theorem apply_deterministic_witness :
    (hbm4_apply gG default_params st0 { addr := 2304, addr_vec := [] }).1 =
      (hbm4_apply gG default_params { hist := List.replicate 64 5, seen := 99 }
        { addr := 2304, addr_vec := [] }).1 ∧
    psbg_apply gL (Request.addr { addr := 2304, addr_vec := [] }) =
      psbg_apply gL (Request.addr { addr := 2304, addr_vec := [7] }) :=
  ⟨apply_deterministic.1 gG default_params st0
      { hist := List.replicate 64 5, seen := 99 } { addr := 2304, addr_vec := [] },
   apply_deterministic.2.2 gL { addr := 2304, addr_vec := [] }
      { addr := 2304, addr_vec := [7] } rfl⟩

/-- C8 (confirmed): both appliers leave the request's linear address
field unchanged — only the address vector is replaced (the slicing works
on a local copy of the normalized address). -/
theorem apply_preserves_addr :
    (∀ (g : GroupGeom) (p : GroupParams) (s : GroupState) (r : Request),
      (hbm4_apply g p s r).1.addr = r.addr) ∧
    (∀ (mp : PsBgMapper) (r : Request), (psbg_apply_req mp r).1.addr = r.addr) := by
  constructor
  · intro g p s r
    rfl
  · intro mp r
    rw [psbg_apply_req]
    rcases psbg_ensure mp with e | g <;> rfl

/-- C10 (confirmed): calling the linear `apply` before `setup` has bound
a device model raises the "DRAM nullptr" runtime error, and the request
is returned entirely untouched — the error fires before any mutation. -/
theorem apply_before_setup_error :
    ∀ r : Request, psbg_apply_req psbg_fresh r =
      (r, some "HBM_PsBg_RoBaRaCoCh: DRAM nullptr") := by
  intro r
  rfl

/-- C5 (counterexample): the round trip fails "for every input address":
on the 4-bit geometry `gX`, the normalized address 16 has a set bit above
the 4 consumed bits, the produced vector is all zeros, and reconstruction
returns 0, not 16. -/
theorem linear_roundtrip_overflow :
    reconAll (psbg_plan gX) (psbg_apply gX 16) = 0 ∧
      (16 : Nat) / 2 ^ gX.tx_offset = 16 := by
  constructor
  · rfl
  · rfl

/-- C5 (amended): for the linear strategy, reconstructing the normalized
address from the produced vector (reassembling each level at its slicing
position, in the fixed channel/row/bank/[bankgroup]/[pseudochannel]/column
order) recovers the original normalized address exactly whenever that
address fits in the total number of consumed bits; the consumed bits
partition that range with no gaps or overlaps (addresses with higher set
bits lose them: the reconstruction equals the address modulo 2^total). -/
theorem linear_roundtrip (g : PsBgGeom) (addr0 : Nat)
    (hnd : ((psbg_plan g).map Prod.fst).Nodup)
    (hlt : ∀ i ∈ (psbg_plan g).map Prod.fst, i < g.num_levels)
    (hrange : addr0 / 2 ^ g.tx_offset <
      2 ^ ((psbg_plan g).map Prod.snd).sum) :
    reconAll (psbg_plan g) (psbg_apply g addr0) =
      addr0 / 2 ^ g.tx_offset := by
  rw [psbg_apply_eq_plan,
    reconAll_sliceAll _ _ _ hnd (by simpa using hlt)]
  exact Nat.mod_eq_of_lt hrange

/-- C5 (witness): the round trip on `gL` at address 2304 (normalized
288, within the 18 consumed bits). -/
theorem linear_roundtrip_witness :
    ((psbg_plan gL).map Prod.fst).Nodup ∧
      reconAll (psbg_plan gL) (psbg_apply gL 2304) = 2304 / 2 ^ gL.tx_offset :=
  ⟨by decide, linear_roundtrip gL 2304 (by decide) (by decide) (by decide)⟩

/-- C1 (counterexample): on the grouped geometry `gG` (channel width 5,
column width 4, row width 6) at address 2304 (normalized 288), the code
writes 9 into the column slot — the 4 bits right above the channel field
— while slicing the remaining levels in the claimed order (row, bank,
bankgroup, pseudochannel, column last) would put 0 there; so the grouped
strategy does not follow the claimed order. -/
theorem grouped_order_counterexample :
    (hbm4_apply gG default_params st0
        { addr := 2304, addr_vec := [] }).1.addr_vec.getD 5 0 = 9 ∧
    ((sliceAll [(4, 6), (3, 2), (2, 2), (1, 1), (5, 4)]
        (List.replicate 6 (-1)) (2304 / 2 ^ 3 / 2 ^ 5)).1).getD 5 0 = 0 ∧
    (9 : Int) ≠ 0 := by
  refine ⟨by rfl, by rfl, by decide⟩

/-- C1 (amended): after the channel index is resolved, the LINEAR
strategy extracts the remaining levels from the working address in the
fixed order row, bank, bankgroup (if present), pseudochannel (if
present), column last (each level's slot holds the field at the
cumulative offset of everything sliced before it); the GROUPED strategy,
after consuming the log2(totalChannels)-bit channel field, extracts the
COLUMN level first, from the lowest remaining bit positions, and then
levels 1 through the row level in ascending level-index order. -/
theorem slicing_order_characterization :
    (∀ (g : PsBgGeom) (addr0 : Nat),
      ((psbg_plan g).map Prod.fst).Nodup →
      (∀ i ∈ (psbg_plan g).map Prod.fst, i < g.num_levels) →
      (psbg_apply g addr0).getD g.idx_channel.toNat 0 =
          ((addr0 / 2 ^ g.tx_offset % 2 ^ pw g g.idx_channel : Nat) : Int) ∧
      (psbg_apply g addr0).getD g.idx_row.toNat 0 =
          ((addr0 / 2 ^ g.tx_offset / 2 ^ pw g g.idx_channel %
            2 ^ pw g g.idx_row : Nat) : Int) ∧
      (psbg_apply g addr0).getD g.idx_bank.toNat 0 =
          ((addr0 / 2 ^ g.tx_offset /
              2 ^ (pw g g.idx_channel + pw g g.idx_row) %
            2 ^ pw g g.idx_bank : Nat) : Int) ∧
      ((0 ≤ g.idx_bg ∧ 0 < pw g g.idx_bg) →
        (psbg_apply g addr0).getD g.idx_bg.toNat 0 =
          ((addr0 / 2 ^ g.tx_offset /
              2 ^ (pw g g.idx_channel + pw g g.idx_row + pw g g.idx_bank) %
            2 ^ pw g g.idx_bg : Nat) : Int)) ∧
      ((0 ≤ g.idx_pch ∧ 0 < pw g g.idx_pch) →
        (psbg_apply g addr0).getD g.idx_pch.toNat 0 =
          ((addr0 / 2 ^ g.tx_offset /
              2 ^ (pw g g.idx_channel + pw g g.idx_row + pw g g.idx_bank +
                (if 0 ≤ g.idx_bg ∧ 0 < pw g g.idx_bg then pw g g.idx_bg else 0)) %
            2 ^ pw g g.idx_pch : Nat) : Int)) ∧
      (psbg_apply g addr0).getD g.idx_col.toNat 0 =
          ((addr0 / 2 ^ g.tx_offset /
              2 ^ (pw g g.idx_channel + pw g g.idx_row + pw g g.idx_bank +
                (if 0 ≤ g.idx_bg ∧ 0 < pw g g.idx_bg then pw g g.idx_bg else 0) +
                (if 0 ≤ g.idx_pch ∧ 0 < pw g g.idx_pch then pw g g.idx_pch else 0)) %
            2 ^ pw g g.idx_col : Nat) : Int)) ∧
    (∀ (g : GroupGeom) (p : GroupParams) (s : GroupState) (r : Request),
      0 < g.col_bits_idx → g.row_bits_idx < g.col_bits_idx →
      g.col_bits_idx < g.num_levels →
      (hbm4_apply g p s r).1.addr_vec.getD g.col_bits_idx 0 =
          ((r.addr / 2 ^ g.tx_offset / 2 ^ gw g 0 %
            2 ^ gw g g.col_bits_idx : Nat) : Int) ∧
      (∀ l : Nat, 1 ≤ l → l ≤ g.row_bits_idx →
        (hbm4_apply g p s r).1.addr_vec.getD l 0 =
          ((r.addr / 2 ^ g.tx_offset /
              2 ^ (gw g 0 + gw g g.col_bits_idx +
                ((List.range' 1 (l - 1)).map (gw g)).sum) %
            2 ^ gw g l : Nat) : Int))) := by
  constructor
  · intro g addr0 hnd hlt
    rw [psbg_apply_eq_plan]
    by_cases hbg : 0 ≤ g.idx_bg ∧ 0 < pw g g.idx_bg <;>
      by_cases hpch : 0 ≤ g.idx_pch ∧ 0 < pw g g.idx_pch
    · have hplan : psbg_plan g =
          [(g.idx_channel.toNat, pw g g.idx_channel),
           (g.idx_row.toNat, pw g g.idx_row),
           (g.idx_bank.toNat, pw g g.idx_bank),
           (g.idx_bg.toNat, pw g g.idx_bg),
           (g.idx_pch.toNat, pw g g.idx_pch),
           (g.idx_col.toNat, pw g g.idx_col)] := by
        simp [psbg_plan, hbg, hpch]
      rw [hplan] at hnd hlt ⊢
      simp only [List.map_cons, List.map_nil] at hnd hlt
      have h1 := List.nodup_cons.mp hnd
      have h2 := List.nodup_cons.mp h1.2
      have h3 := List.nodup_cons.mp h2.2
      have h4 := List.nodup_cons.mp h3.2
      have h5 := List.nodup_cons.mp h4.2
      simp only [hbg, hpch, ite_true]
      refine ⟨?_, ?_, ?_, fun _ => ?_, fun _ => ?_, ?_⟩
      · have e := sliceAll_getD_last []
          [(g.idx_row.toNat, pw g g.idx_row),
           (g.idx_bank.toNat, pw g g.idx_bank),
           (g.idx_bg.toNat, pw g g.idx_bg),
           (g.idx_pch.toNat, pw g g.idx_pch),
           (g.idx_col.toNat, pw g g.idx_col)]
          g.idx_channel.toNat (pw g g.idx_channel)
          (List.replicate g.num_levels (-1)) (addr0 / 2 ^ g.tx_offset)
          (by rw [List.length_replicate]; exact hlt _ (by simp))
          (by simpa using h1.1)
        simpa using e
      · have e := sliceAll_getD_last
          [(g.idx_channel.toNat, pw g g.idx_channel)]
          [(g.idx_bank.toNat, pw g g.idx_bank),
           (g.idx_bg.toNat, pw g g.idx_bg),
           (g.idx_pch.toNat, pw g g.idx_pch),
           (g.idx_col.toNat, pw g g.idx_col)]
          g.idx_row.toNat (pw g g.idx_row)
          (List.replicate g.num_levels (-1)) (addr0 / 2 ^ g.tx_offset)
          (by rw [List.length_replicate]; exact hlt _ (by simp))
          (by simpa using h2.1)
        simpa using e
      · have e := sliceAll_getD_last
          [(g.idx_channel.toNat, pw g g.idx_channel),
           (g.idx_row.toNat, pw g g.idx_row)]
          [(g.idx_bg.toNat, pw g g.idx_bg),
           (g.idx_pch.toNat, pw g g.idx_pch),
           (g.idx_col.toNat, pw g g.idx_col)]
          g.idx_bank.toNat (pw g g.idx_bank)
          (List.replicate g.num_levels (-1)) (addr0 / 2 ^ g.tx_offset)
          (by rw [List.length_replicate]; exact hlt _ (by simp))
          (by simpa using h3.1)
        simpa [Nat.add_assoc] using e
      · have e := sliceAll_getD_last
          [(g.idx_channel.toNat, pw g g.idx_channel),
           (g.idx_row.toNat, pw g g.idx_row),
           (g.idx_bank.toNat, pw g g.idx_bank)]
          [(g.idx_pch.toNat, pw g g.idx_pch),
           (g.idx_col.toNat, pw g g.idx_col)]
          g.idx_bg.toNat (pw g g.idx_bg)
          (List.replicate g.num_levels (-1)) (addr0 / 2 ^ g.tx_offset)
          (by rw [List.length_replicate]; exact hlt _ (by simp))
          (by simpa using h4.1)
        simpa [Nat.add_assoc] using e
      · have e := sliceAll_getD_last
          [(g.idx_channel.toNat, pw g g.idx_channel),
           (g.idx_row.toNat, pw g g.idx_row),
           (g.idx_bank.toNat, pw g g.idx_bank),
           (g.idx_bg.toNat, pw g g.idx_bg)]
          [(g.idx_col.toNat, pw g g.idx_col)]
          g.idx_pch.toNat (pw g g.idx_pch)
          (List.replicate g.num_levels (-1)) (addr0 / 2 ^ g.tx_offset)
          (by rw [List.length_replicate]; exact hlt _ (by simp))
          (by simpa using h5.1)
        simpa [Nat.add_assoc] using e
      · have e := sliceAll_getD_last
          [(g.idx_channel.toNat, pw g g.idx_channel),
           (g.idx_row.toNat, pw g g.idx_row),
           (g.idx_bank.toNat, pw g g.idx_bank),
           (g.idx_bg.toNat, pw g g.idx_bg),
           (g.idx_pch.toNat, pw g g.idx_pch)] []
          g.idx_col.toNat (pw g g.idx_col)
          (List.replicate g.num_levels (-1)) (addr0 / 2 ^ g.tx_offset)
          (by rw [List.length_replicate]; exact hlt _ (by simp))
          (by simp)
        simpa [Nat.add_assoc] using e
    · have hplan : psbg_plan g =
          [(g.idx_channel.toNat, pw g g.idx_channel),
           (g.idx_row.toNat, pw g g.idx_row),
           (g.idx_bank.toNat, pw g g.idx_bank),
           (g.idx_bg.toNat, pw g g.idx_bg),
           (g.idx_col.toNat, pw g g.idx_col)] := by
        simp [psbg_plan, hbg, hpch]
      rw [hplan] at hnd hlt ⊢
      simp only [List.map_cons, List.map_nil] at hnd hlt
      have h1 := List.nodup_cons.mp hnd
      have h2 := List.nodup_cons.mp h1.2
      have h3 := List.nodup_cons.mp h2.2
      have h4 := List.nodup_cons.mp h3.2
      simp only [hbg, hpch, ite_true, ite_false]
      refine ⟨?_, ?_, ?_, fun _ => ?_, fun hp => hp.elim, ?_⟩
      · have e := sliceAll_getD_last []
          [(g.idx_row.toNat, pw g g.idx_row),
           (g.idx_bank.toNat, pw g g.idx_bank),
           (g.idx_bg.toNat, pw g g.idx_bg),
           (g.idx_col.toNat, pw g g.idx_col)]
          g.idx_channel.toNat (pw g g.idx_channel)
          (List.replicate g.num_levels (-1)) (addr0 / 2 ^ g.tx_offset)
          (by rw [List.length_replicate]; exact hlt _ (by simp))
          (by simpa using h1.1)
        simpa using e
      · have e := sliceAll_getD_last
          [(g.idx_channel.toNat, pw g g.idx_channel)]
          [(g.idx_bank.toNat, pw g g.idx_bank),
           (g.idx_bg.toNat, pw g g.idx_bg),
           (g.idx_col.toNat, pw g g.idx_col)]
          g.idx_row.toNat (pw g g.idx_row)
          (List.replicate g.num_levels (-1)) (addr0 / 2 ^ g.tx_offset)
          (by rw [List.length_replicate]; exact hlt _ (by simp))
          (by simpa using h2.1)
        simpa using e
      · have e := sliceAll_getD_last
          [(g.idx_channel.toNat, pw g g.idx_channel),
           (g.idx_row.toNat, pw g g.idx_row)]
          [(g.idx_bg.toNat, pw g g.idx_bg),
           (g.idx_col.toNat, pw g g.idx_col)]
          g.idx_bank.toNat (pw g g.idx_bank)
          (List.replicate g.num_levels (-1)) (addr0 / 2 ^ g.tx_offset)
          (by rw [List.length_replicate]; exact hlt _ (by simp))
          (by simpa using h3.1)
        simpa [Nat.add_assoc] using e
      · have e := sliceAll_getD_last
          [(g.idx_channel.toNat, pw g g.idx_channel),
           (g.idx_row.toNat, pw g g.idx_row),
           (g.idx_bank.toNat, pw g g.idx_bank)]
          [(g.idx_col.toNat, pw g g.idx_col)]
          g.idx_bg.toNat (pw g g.idx_bg)
          (List.replicate g.num_levels (-1)) (addr0 / 2 ^ g.tx_offset)
          (by rw [List.length_replicate]; exact hlt _ (by simp))
          (by simpa using h4.1)
        simpa [Nat.add_assoc] using e
      · have e := sliceAll_getD_last
          [(g.idx_channel.toNat, pw g g.idx_channel),
           (g.idx_row.toNat, pw g g.idx_row),
           (g.idx_bank.toNat, pw g g.idx_bank),
           (g.idx_bg.toNat, pw g g.idx_bg)] []
          g.idx_col.toNat (pw g g.idx_col)
          (List.replicate g.num_levels (-1)) (addr0 / 2 ^ g.tx_offset)
          (by rw [List.length_replicate]; exact hlt _ (by simp))
          (by simp)
        simpa [Nat.add_assoc] using e
    · have hplan : psbg_plan g =
          [(g.idx_channel.toNat, pw g g.idx_channel),
           (g.idx_row.toNat, pw g g.idx_row),
           (g.idx_bank.toNat, pw g g.idx_bank),
           (g.idx_pch.toNat, pw g g.idx_pch),
           (g.idx_col.toNat, pw g g.idx_col)] := by
        simp [psbg_plan, hbg, hpch]
      rw [hplan] at hnd hlt ⊢
      simp only [List.map_cons, List.map_nil] at hnd hlt
      have h1 := List.nodup_cons.mp hnd
      have h2 := List.nodup_cons.mp h1.2
      have h3 := List.nodup_cons.mp h2.2
      have h4 := List.nodup_cons.mp h3.2
      simp only [hbg, hpch, ite_true, ite_false]
      refine ⟨?_, ?_, ?_, fun hb => hb.elim, fun _ => ?_, ?_⟩
      · have e := sliceAll_getD_last []
          [(g.idx_row.toNat, pw g g.idx_row),
           (g.idx_bank.toNat, pw g g.idx_bank),
           (g.idx_pch.toNat, pw g g.idx_pch),
           (g.idx_col.toNat, pw g g.idx_col)]
          g.idx_channel.toNat (pw g g.idx_channel)
          (List.replicate g.num_levels (-1)) (addr0 / 2 ^ g.tx_offset)
          (by rw [List.length_replicate]; exact hlt _ (by simp))
          (by simpa using h1.1)
        simpa using e
      · have e := sliceAll_getD_last
          [(g.idx_channel.toNat, pw g g.idx_channel)]
          [(g.idx_bank.toNat, pw g g.idx_bank),
           (g.idx_pch.toNat, pw g g.idx_pch),
           (g.idx_col.toNat, pw g g.idx_col)]
          g.idx_row.toNat (pw g g.idx_row)
          (List.replicate g.num_levels (-1)) (addr0 / 2 ^ g.tx_offset)
          (by rw [List.length_replicate]; exact hlt _ (by simp))
          (by simpa using h2.1)
        simpa using e
      · have e := sliceAll_getD_last
          [(g.idx_channel.toNat, pw g g.idx_channel),
           (g.idx_row.toNat, pw g g.idx_row)]
          [(g.idx_pch.toNat, pw g g.idx_pch),
           (g.idx_col.toNat, pw g g.idx_col)]
          g.idx_bank.toNat (pw g g.idx_bank)
          (List.replicate g.num_levels (-1)) (addr0 / 2 ^ g.tx_offset)
          (by rw [List.length_replicate]; exact hlt _ (by simp))
          (by simpa using h3.1)
        simpa [Nat.add_assoc] using e
      · have e := sliceAll_getD_last
          [(g.idx_channel.toNat, pw g g.idx_channel),
           (g.idx_row.toNat, pw g g.idx_row),
           (g.idx_bank.toNat, pw g g.idx_bank)]
          [(g.idx_col.toNat, pw g g.idx_col)]
          g.idx_pch.toNat (pw g g.idx_pch)
          (List.replicate g.num_levels (-1)) (addr0 / 2 ^ g.tx_offset)
          (by rw [List.length_replicate]; exact hlt _ (by simp))
          (by simpa using h4.1)
        simpa [Nat.add_assoc] using e
      · have e := sliceAll_getD_last
          [(g.idx_channel.toNat, pw g g.idx_channel),
           (g.idx_row.toNat, pw g g.idx_row),
           (g.idx_bank.toNat, pw g g.idx_bank),
           (g.idx_pch.toNat, pw g g.idx_pch)] []
          g.idx_col.toNat (pw g g.idx_col)
          (List.replicate g.num_levels (-1)) (addr0 / 2 ^ g.tx_offset)
          (by rw [List.length_replicate]; exact hlt _ (by simp))
          (by simp)
        simpa [Nat.add_assoc] using e
    · have hplan : psbg_plan g =
          [(g.idx_channel.toNat, pw g g.idx_channel),
           (g.idx_row.toNat, pw g g.idx_row),
           (g.idx_bank.toNat, pw g g.idx_bank),
           (g.idx_col.toNat, pw g g.idx_col)] := by
        simp [psbg_plan, hbg, hpch]
      rw [hplan] at hnd hlt ⊢
      simp only [List.map_cons, List.map_nil] at hnd hlt
      have h1 := List.nodup_cons.mp hnd
      have h2 := List.nodup_cons.mp h1.2
      have h3 := List.nodup_cons.mp h2.2
      simp only [hbg, hpch, ite_false]
      refine ⟨?_, ?_, ?_, fun hb => hb.elim, fun hp => hp.elim, ?_⟩
      · have e := sliceAll_getD_last []
          [(g.idx_row.toNat, pw g g.idx_row),
           (g.idx_bank.toNat, pw g g.idx_bank),
           (g.idx_col.toNat, pw g g.idx_col)]
          g.idx_channel.toNat (pw g g.idx_channel)
          (List.replicate g.num_levels (-1)) (addr0 / 2 ^ g.tx_offset)
          (by rw [List.length_replicate]; exact hlt _ (by simp))
          (by simpa using h1.1)
        simpa using e
      · have e := sliceAll_getD_last
          [(g.idx_channel.toNat, pw g g.idx_channel)]
          [(g.idx_bank.toNat, pw g g.idx_bank),
           (g.idx_col.toNat, pw g g.idx_col)]
          g.idx_row.toNat (pw g g.idx_row)
          (List.replicate g.num_levels (-1)) (addr0 / 2 ^ g.tx_offset)
          (by rw [List.length_replicate]; exact hlt _ (by simp))
          (by simpa using h2.1)
        simpa using e
      · have e := sliceAll_getD_last
          [(g.idx_channel.toNat, pw g g.idx_channel),
           (g.idx_row.toNat, pw g g.idx_row)]
          [(g.idx_col.toNat, pw g g.idx_col)]
          g.idx_bank.toNat (pw g g.idx_bank)
          (List.replicate g.num_levels (-1)) (addr0 / 2 ^ g.tx_offset)
          (by rw [List.length_replicate]; exact hlt _ (by simp))
          (by simpa using h3.1)
        simpa [Nat.add_assoc] using e
      · have e := sliceAll_getD_last
          [(g.idx_channel.toNat, pw g g.idx_channel),
           (g.idx_row.toNat, pw g g.idx_row),
           (g.idx_bank.toNat, pw g g.idx_bank)] []
          g.idx_col.toNat (pw g g.idx_col)
          (List.replicate g.num_levels (-1)) (addr0 / 2 ^ g.tx_offset)
          (by rw [List.length_replicate]; exact hlt _ (by simp))
          (by simp)
        simpa [Nat.add_assoc] using e
  · intro g p s r hc0 hcr hcn
    rw [hbm4_apply_vec_eq]
    have hv1len : ((list_resize r.addr_vec g.num_levels (-1)).set 0
        ((hbm4_channel g p (r.addr / 2 ^ g.tx_offset) : Nat) : Int)).length =
        g.num_levels := by
      rw [List.length_set, list_resize_length]
    constructor
    · have e := sliceAll_getD_last []
        ((List.range' 1 g.row_bits_idx).map fun l => (l, gw g l))
        g.col_bits_idx (gw g g.col_bits_idx)
        ((list_resize r.addr_vec g.num_levels (-1)).set 0
          ((hbm4_channel g p (r.addr / 2 ^ g.tx_offset) : Nat) : Int))
        (r.addr / 2 ^ g.tx_offset / 2 ^ gw g 0)
        (by rw [hv1len]; exact hcn)
        (by
          intro hmem
          simp only [List.map_map, List.mem_map, Function.comp_apply] at hmem
          obtain ⟨j, hj, hje⟩ := hmem
          rw [List.mem_range'_1] at hj
          omega)
      rw [hbm4_tail_plan]
      simpa using e
    · intro l hl1 hl2
      have hsplit : List.range' 1 g.row_bits_idx =
          List.range' 1 (l - 1) ++ l :: List.range' (l + 1) (g.row_bits_idx - l) := by
        have h2 : (l :: List.range' (l + 1) (g.row_bits_idx - l) : List Nat) =
            List.range' l ((g.row_bits_idx - l) + 1) := by
          rw [List.range'_succ]
        rw [h2]
        have h3 := List.range'_append 1 (l - 1) ((g.row_bits_idx - l) + 1) 1
        rw [show 1 + 1 * (l - 1) = l by omega] at h3
        rw [show (g.row_bits_idx - l) + 1 + (l - 1) = g.row_bits_idx by omega] at h3
        exact h3.symm
      have e := sliceAll_getD_last
        ((g.col_bits_idx, gw g g.col_bits_idx) ::
          (List.range' 1 (l - 1)).map fun j => (j, gw g j))
        ((List.range' (l + 1) (g.row_bits_idx - l)).map fun j => (j, gw g j))
        l (gw g l)
        ((list_resize r.addr_vec g.num_levels (-1)).set 0
          ((hbm4_channel g p (r.addr / 2 ^ g.tx_offset) : Nat) : Int))
        (r.addr / 2 ^ g.tx_offset / 2 ^ gw g 0)
        (by rw [hv1len]; omega)
        (by
          intro hmem
          simp only [List.map_map, List.mem_map, Function.comp_apply] at hmem
          obtain ⟨j, hj, hje⟩ := hmem
          rw [List.mem_range'_1] at hj
          omega)
      rw [hbm4_tail_plan, hsplit, List.map_append, List.map_cons]
      simp only [List.cons_append, List.map_cons, List.map_map, List.sum_cons,
        Function.comp] at e
      rw [e]
      rw [Nat.div_div_eq_div_mul, ← pow_add]
      rw [Nat.add_assoc]
      rw [show (Prod.snd ∘ fun j : Nat => (j, gw g j)) = gw g from rfl]

/-- C1 (witness): the order characterization at address 2304 on `gL`
(linear: row slot) and `gG` (grouped: column slot and the row level
l = 4). -/
theorem slicing_order_characterization_witness :
    ((psbg_plan gL).map Prod.fst).Nodup ∧
    (psbg_apply gL 2304).getD gL.idx_row.toNat 0 =
        ((2304 / 2 ^ gL.tx_offset / 2 ^ pw gL gL.idx_channel %
          2 ^ pw gL gL.idx_row : Nat) : Int) ∧
    (hbm4_apply gG default_params st0
        { addr := 2304, addr_vec := [] }).1.addr_vec.getD gG.col_bits_idx 0 =
      ((2304 / 2 ^ gG.tx_offset / 2 ^ gw gG 0 %
        2 ^ gw gG gG.col_bits_idx : Nat) : Int) ∧
    (hbm4_apply gG default_params st0
        { addr := 2304, addr_vec := [] }).1.addr_vec.getD 4 0 =
      ((2304 / 2 ^ gG.tx_offset /
          2 ^ (gw gG 0 + gw gG gG.col_bits_idx +
            ((List.range' 1 (4 - 1)).map (gw gG)).sum) %
        2 ^ gw gG 4 : Nat) : Int) := by
  refine ⟨by decide, ?_, ?_, ?_⟩
  · exact (slicing_order_characterization.1 gL 2304 (by decide) (by decide)).2.1
  · exact (slicing_order_characterization.2 gG default_params st0
      { addr := 2304, addr_vec := [] } (by decide) (by decide) (by decide)).1
  · exact (slicing_order_characterization.2 gG default_params st0
      { addr := 2304, addr_vec := [] } (by decide) (by decide) (by decide)).2
      4 (by decide) (by decide)

/-- C9 (counterexample): on `gC9v` the rebased group-select position (10)
is at or above the channel width (5), yet the two addresses 0 and 1024 —
which differ exactly in the group-select bit — map to vectors differing
ONLY in the channel slot: the group bit sits above the 2 remaining sliced
bits, so it is not sliced into any other level's index. -/
theorem group_bit_beyond_sliced_range :
    hbm4_group_lsb_trx gC9v default_params = 10 ∧
    gw gC9v 0 = 5 ∧
    (hbm4_apply gC9v default_params st0
      { addr := 0, addr_vec := [] }).1.addr_vec = [0, 0, 0] ∧
    (hbm4_apply gC9v default_params st0
      { addr := 1024, addr_vec := [] }).1.addr_vec = [16, 0, 0] := by
  refine ⟨by decide, by decide, by rfl, by rfl⟩

/-- C9 (amended): only the log2(totalChannels)-bit channel field is
removed from the working address, so whenever the rebased group-select
position is at or above that width AND below the total number of bits the
remaining levels consume, flipping the group-select bit changes both the
channel slot and at least one other output slot — a single
normalized-address bit influences two slots at once. -/
theorem group_bit_double_influence (g : GroupGeom) (p : GroupParams)
    (s : GroupState) (r r2 : Request)
    (hgb : 0 < hbm4_group_bits g p)
    (hcb : gw g 0 ≤ hbm4_group_lsb_trx g p)
    (hib : hbm4_intra_bits g p ≤ gw g 0)
    (hspan : hbm4_group_lsb_trx g p <
      gw g 0 + ((hbm4_tail_plan g).map Prod.snd).sum)
    (hc0 : 0 < g.col_bits_idx) (hcr : g.row_bits_idx < g.col_bits_idx)
    (hcn : g.col_bits_idx < g.num_levels)
    (haddr : r2.addr = r.addr + 2 ^ (g.tx_offset + hbm4_group_lsb_trx g p))
    (_hvec : r2.addr_vec = r.addr_vec) :
    (hbm4_apply g p s r).1.addr_vec.getD 0 0 ≠
        (hbm4_apply g p s r2).1.addr_vec.getD 0 0 ∧
      ∃ i, i ≠ 0 ∧
        (hbm4_apply g p s r).1.addr_vec.getD i 0 ≠
          (hbm4_apply g p s r2).1.addr_vec.getD i 0 := by
  have hfst : (Prod.fst ∘ fun l : Nat => (l, gw g l)) = id := rfl
  have hppos : ∀ k : Nat, 0 < 2 ^ k := fun k => Nat.pos_pow_of_pos _ (by omega)
  have ha2 : r2.addr / 2 ^ g.tx_offset =
      r.addr / 2 ^ g.tx_offset + 2 ^ hbm4_group_lsb_trx g p := by
    rw [haddr, pow_add]
    exact Nat.add_mul_div_left _ _ (hppos _)
  have hgid : hbm4_group_id g p
      (r.addr / 2 ^ g.tx_offset + 2 ^ hbm4_group_lsb_trx g p) ≠
      hbm4_group_id g p (r.addr / 2 ^ g.tx_offset) := by
    rw [hbm4_group_id, hbm4_group_id, if_pos hgb, if_pos hgb,
      Nat.add_div_right _ (hppos _)]
    intro he
    have hd := (Nat.modEq_iff_dvd' (Nat.le_succ _)).mp he.symm
    rw [Nat.succ_sub (le_refl _), Nat.sub_self] at hd
    have hle1 := Nat.le_of_dvd (by omega) hd
    have h2le : 2 ≤ 2 ^ hbm4_group_bits g p := by
      calc 2 = 2 ^ 1 := by norm_num
        _ ≤ 2 ^ hbm4_group_bits g p := Nat.pow_le_pow_right (by omega) hgb
    omega
  have hiid : hbm4_intra_id g p
      (r.addr / 2 ^ g.tx_offset + 2 ^ hbm4_group_lsb_trx g p) =
      hbm4_intra_id g p (r.addr / 2 ^ g.tx_offset) := by
    rw [hbm4_intra_id, hbm4_intra_id]
    by_cases hib0 : 0 < hbm4_intra_bits g p
    · rw [if_pos hib0, if_pos hib0]
      obtain ⟨k, hk⟩ : 2 ^ hbm4_intra_bits g p ∣ 2 ^ hbm4_group_lsb_trx g p :=
        pow_dvd_pow 2 (le_trans hib hcb)
      rw [hk, Nat.add_mul_mod_self_left]
    · rw [if_neg hib0, if_neg hib0]
  have hch : hbm4_channel g p (r.addr / 2 ^ g.tx_offset) ≠
      hbm4_channel g p
        (r.addr / 2 ^ g.tx_offset + 2 ^ hbm4_group_lsb_trx g p) := by
    rw [hbm4_channel, hbm4_channel, hiid]
    intro he
    have hcancel := Nat.add_right_cancel he
    have hApos : 0 < hbm4_A g p := le_max_left 1 _
    exact hgid (Nat.eq_of_mul_eq_mul_right hApos hcancel).symm
  have hndtail : ((hbm4_tail_plan g).map Prod.fst).Nodup := by
    simp only [hbm4_tail_plan, List.map_cons, List.map_map, hfst, List.map_id]
    rw [List.nodup_cons]
    constructor
    · intro hmem
      rw [List.mem_range'_1] at hmem
      omega
    · exact List.nodup_range' 1 g.row_bits_idx
  have hslotne : ∀ i ∈ (hbm4_tail_plan g).map Prod.fst, i ≠ 0 := by
    intro i hi
    simp only [hbm4_tail_plan, List.map_cons, List.map_map, hfst,
      List.map_id, List.mem_cons] at hi
    rcases hi with h | h
    · omega
    · rw [List.mem_range'_1] at h
      omega
  have hslotlt : ∀ i ∈ (hbm4_tail_plan g).map Prod.fst, i < g.num_levels := by
    intro i hi
    simp only [hbm4_tail_plan, List.map_cons, List.map_map, hfst,
      List.map_id, List.mem_cons] at hi
    rcases hi with h | h
    · omega
    · rw [List.mem_range'_1] at h
      omega
  have hrecon1 : reconAll (hbm4_tail_plan g) (hbm4_apply g p s r).1.addr_vec =
      r.addr / 2 ^ g.tx_offset / 2 ^ gw g 0 %
        2 ^ ((hbm4_tail_plan g).map Prod.snd).sum := by
    rw [hbm4_apply_vec_eq]
    exact reconAll_sliceAll _ _ _ hndtail (by
      intro i hi
      rw [List.length_set, list_resize_length]
      exact hslotlt i hi)
  have hrecon2 : reconAll (hbm4_tail_plan g) (hbm4_apply g p s r2).1.addr_vec =
      r2.addr / 2 ^ g.tx_offset / 2 ^ gw g 0 %
        2 ^ ((hbm4_tail_plan g).map Prod.snd).sum := by
    rw [hbm4_apply_vec_eq]
    exact reconAll_sliceAll _ _ _ hndtail (by
      intro i hi
      rw [List.length_set, list_resize_length]
      exact hslotlt i hi)
  have hb2 : r2.addr / 2 ^ g.tx_offset / 2 ^ gw g 0 =
      r.addr / 2 ^ g.tx_offset / 2 ^ gw g 0 +
        2 ^ (hbm4_group_lsb_trx g p - gw g 0) := by
    rw [ha2]
    rw [show (2 : Nat) ^ hbm4_group_lsb_trx g p =
      2 ^ gw g 0 * 2 ^ (hbm4_group_lsb_trx g p - gw g 0) by
        rw [← pow_add]
        congr 1
        omega]
    exact Nat.add_mul_div_left _ _ (hppos _)
  have hmodne : r.addr / 2 ^ g.tx_offset / 2 ^ gw g 0 %
        2 ^ ((hbm4_tail_plan g).map Prod.snd).sum ≠
      (r.addr / 2 ^ g.tx_offset / 2 ^ gw g 0 +
          2 ^ (hbm4_group_lsb_trx g p - gw g 0)) %
        2 ^ ((hbm4_tail_plan g).map Prod.snd).sum := by
    intro he
    have hd := (Nat.modEq_iff_dvd' (Nat.le_add_right _ _)).mp he
    rw [Nat.add_sub_cancel_left] at hd
    have hqT := (Nat.pow_dvd_pow_iff_le_right (by omega)).mp hd
    omega
  constructor
  · rw [hbm4_vec_getD_zero g p s r (by omega) (by omega),
      hbm4_vec_getD_zero g p s r2 (by omega) (by omega), ha2]
    intro he
    exact hch (by exact_mod_cast he)
  · by_contra hno
    push_neg at hno
    apply hmodne
    calc r.addr / 2 ^ g.tx_offset / 2 ^ gw g 0 %
          2 ^ ((hbm4_tail_plan g).map Prod.snd).sum
        = reconAll (hbm4_tail_plan g) (hbm4_apply g p s r).1.addr_vec :=
          hrecon1.symm
      _ = reconAll (hbm4_tail_plan g) (hbm4_apply g p s r2).1.addr_vec :=
          reconAll_congr _ _ _ (fun i hi => hno i (hslotne i hi))
      _ = (r.addr / 2 ^ g.tx_offset / 2 ^ gw g 0 +
            2 ^ (hbm4_group_lsb_trx g p - gw g 0)) %
          2 ^ ((hbm4_tail_plan g).map Prod.snd).sum := by
          rw [hrecon2, hb2]

/-- C9 (witness): on `gG` (channel width 5, rebased position 7, 15 bits
of remaining levels) the addresses 0 and 1024 differ in the group bit and
their vectors differ both in slot 0 (channels 0 vs 16) and in the column
slot 5 (0 vs 4). -/
theorem group_bit_double_influence_witness :
    (hbm4_apply gG default_params st0
        { addr := 0, addr_vec := [] }).1.addr_vec.getD 0 0 ≠
      (hbm4_apply gG default_params st0
        { addr := 1024, addr_vec := [] }).1.addr_vec.getD 0 0 ∧
    (hbm4_apply gG default_params st0
        { addr := 0, addr_vec := [] }).1.addr_vec.getD 5 0 ≠
      (hbm4_apply gG default_params st0
        { addr := 1024, addr_vec := [] }).1.addr_vec.getD 5 0 :=
  ⟨(group_bit_double_influence gG default_params st0
      { addr := 0, addr_vec := [] } { addr := 1024, addr_vec := [] }
      (by decide) (by decide) (by decide) (by decide) (by decide) (by decide)
      (by decide) (by decide) (by decide)).1,
   by decide⟩

end Ramulator
